import Mathlib

/-!
Shallow embedding of the finish-arbitration and aggregation engine of the
`racegmsrvr` repository (source: `src/routes/races.js`), together with
theorems checking the claims of the specification against it.

Modelling conventions:
* JS millisecond timestamps are `Nat`; JS numbers carrying distances are `ℚ`
  (the code performs only `+`, `max`, comparisons and `Math.floor` on them).
* Mongo user references are modelled by the string `asUserId` produces for
  them; a JS `null`/missing reference is `Option.none`.  A stored reference
  is a JS object and hence truthy exactly when it is `some`, while a user-id
  *string* is truthy exactly when it is nonempty.
* Fallible lookups return `Option`; request handlers return plain records.
-/

namespace RaceSrv

/-- Participant status enum of the Race schema: `active`, `completed`, `withdrawn`. -/
inductive PStatus where
  | active
  | completed
  | withdrawn
deriving DecidableEq, Repr

/-- One element of a participant's `dailyDistances` array.  `date` is the UTC
ISO calendar-day key under which the entry is stored (the code stores
`new Date(dayKey)` and recovers the key with `asIsoDayString`; the embedding
keeps the key itself).  `distance` is the kilometre value for that day. -/
structure DayEntry where
  date : String
  distance : ℚ
deriving DecidableEq, Repr

/-- A race participant, restricted to the fields the arbitration, sync and
aggregation code reads.  `user` is the participant's user id as a string;
the empty string models a JS `null`/missing user reference. -/
structure Participant where
  user : String
  status : PStatus
  completedAt : Option Nat := none
  joinedAt : Option Nat := none
  totalDistance : ℚ := 0
  dailyDistances : List DayEntry := []
deriving DecidableEq, Repr

/-- The per-race `finishResolution` record cached on the Race document. -/
structure FinishResolution where
  provisionalWinner : Option String := none
  provisionalAt : Option Nat := none
  confirmationWindowEndsAt : Option Nat := none
  finalWinner : Option String := none
  finalizedAt : Option Nat := none
deriving DecidableEq, Repr

/-- A race document restricted to the fields the claims are about.
`raceDistance` stands for `race.calculateRaceDistance()` (the geodesic
start/end great-circle distance; the Race model computing it is outside the
routed source, and no claim depends on its formula, only on its value). -/
structure Race where
  id : String := ""
  startDate : Nat := 0
  endDate : Nat := 0
  raceDistance : ℚ := 0
  participants : List Participant := []
  finishResolution : FinishResolution := {}
deriving DecidableEq, Repr

/-- `asUserId(value)`: the id string of a user reference, `''` for `null`. -/
def asUserId (value : Option String) : String := value.getD ""

/-- One step of the `pickEarliestCompletedParticipant` loop: skip participants
that are not completed or carry no completion timestamp; otherwise keep the
earlier completion, and on an exact millisecond tie prefer the
lexicographically smaller (nonempty) user id. -/
def pickStep (earliest : Option Participant) (participant : Participant) :
    Option Participant :=
  if participant.status ≠ PStatus.completed ∨ participant.completedAt = none then
    earliest
  else
    match earliest with
    | none => some participant
    | some e =>
      let currentMs := participant.completedAt.getD 0
      let earliestMs := e.completedAt.getD 0
      if currentMs < earliestMs then some participant
      else if currentMs = earliestMs then
        if participant.user ≠ "" ∧ e.user ≠ "" ∧ participant.user < e.user then
          some participant
        else some e
      else some e

/-- `pickEarliestCompletedParticipant(race)`: fold of `pickStep` over the
race's participants, starting from `null`. -/
def pickEarliestCompletedParticipant (race : Race) : Option Participant :=
  race.participants.foldl pickStep none

/-- The `finishState` projection returned to clients. -/
structure FinishState where
  status : String
  winnerUserId : Option String
  provisionalWinnerUserId : Option String
  provisionalAt : Option Nat
  confirmationWindowEndsAt : Option Nat
  finalWinnerUserId : Option String
  finalizedAt : Option Nat
  confirmationWindowMs : Nat
deriving DecidableEq, Repr

/-- `buildFinishStatePayload(race)`; `W` is `FINISH_CONFIRMATION_WINDOW_MS`. -/
def buildFinishStatePayload (W : Nat) (race : Race) : FinishState :=
  let resolution := race.finishResolution
  let finalWinnerUserId := asUserId resolution.finalWinner
  let provisionalWinnerUserId := asUserId resolution.provisionalWinner
  { status :=
      if finalWinnerUserId ≠ "" then "final"
      else if provisionalWinnerUserId ≠ "" then "provisional"
      else "none"
    winnerUserId :=
      if finalWinnerUserId ≠ "" then some finalWinnerUserId
      else if provisionalWinnerUserId ≠ "" then some provisionalWinnerUserId
      else none
    provisionalWinnerUserId :=
      if provisionalWinnerUserId ≠ "" then some provisionalWinnerUserId else none
    provisionalAt := resolution.provisionalAt
    confirmationWindowEndsAt := resolution.confirmationWindowEndsAt
    finalWinnerUserId :=
      if finalWinnerUserId ≠ "" then some finalWinnerUserId else none
    finalizedAt := resolution.finalizedAt
    confirmationWindowMs := W }

/-- `refreshFinishResolution(race, now)`; `W` is the configurable
`FINISH_CONFIRMATION_WINDOW_MS` (default `90000`).  Returns the updated race
together with the `changed` flag.  The sequential mutations of the JS body
are threaded as `(resolution, changed)` pairs in source order. -/
def refreshFinishResolution (W : Nat) (race : Race) (now : Nat) : Race × Bool :=
  let resolution := race.finishResolution
  match pickEarliestCompletedParticipant race with
  | none =>
    if resolution.provisionalWinner.isSome || resolution.provisionalAt.isSome ||
        resolution.confirmationWindowEndsAt.isSome || resolution.finalWinner.isSome ||
        resolution.finalizedAt.isSome then
      ({ race with finishResolution :=
          { provisionalWinner := none, provisionalAt := none,
            confirmationWindowEndsAt := none, finalWinner := none,
            finalizedAt := none } }, true)
    else (race, false)
  | some earliest =>
    let winnerUserId := earliest.user
    let winnerAt := earliest.completedAt.getD 0
    let provisionalWinnerUserId := asUserId resolution.provisionalWinner
    let finalWinnerUserId := asUserId resolution.finalWinner
    -- If historical data changed and the final winner is no longer earliest,
    -- reopen arbitration and resolve again.
    let st1 : FinishResolution × Bool :=
      if finalWinnerUserId ≠ "" ∧ finalWinnerUserId ≠ winnerUserId then
        ({ resolution with finalWinner := none, finalizedAt := none }, true)
      else (resolution, false)
    let st2 : FinishResolution × Bool :=
      if provisionalWinnerUserId ≠ winnerUserId then
        ({ st1.1 with
            provisionalWinner := some earliest.user
            provisionalAt := some winnerAt
            confirmationWindowEndsAt := some (now + W)
            finalWinner := none
            finalizedAt := none }, true)
      else
        let provisionalAtMs := st1.1.provisionalAt.getD 0
        let stA : FinishResolution × Bool :=
          if provisionalAtMs ≠ winnerAt then
            ({ st1.1 with provisionalAt := some winnerAt }, true)
          else st1
        if stA.1.confirmationWindowEndsAt = none then
          ({ stA.1 with confirmationWindowEndsAt := some (now + W) }, true)
        else stA
    let st3 : FinishResolution × Bool :=
      match st2.1.finalWinner, st2.1.confirmationWindowEndsAt with
      | none, some endsAt =>
        if endsAt ≤ now then
          ({ st2.1 with finalWinner := some earliest.user, finalizedAt := some now },
            true)
        else st2
      | _, _ => st2
    ({ race with finishResolution := st3.1 }, st3.2)

/-! ## Progression model (`xpForLevel`, `levelFromXp`, XP conversion) -/

/-- `XP_PER_KM`: XP credited per kilometre of confirmed distance gain. -/
def XP_PER_KM : Nat := 10

/-- `xpForLevel(level)`: `0` for `level ≤ 1`, otherwise
`Math.floor(100 * Math.pow(level - 1, 1.5))`.  Since
`100·(l-1)^1.5 = √(10000·(l-1)^3)`, that floor is `Nat.sqrt (10000·(l-1)^3)`
(the JS `Math.pow` float is abstracted to exact real arithmetic). -/
def xpForLevel (level : Nat) : Nat :=
  if level ≤ 1 then 0 else Nat.sqrt (10000 * (level - 1) ^ 3)

/-- The `while (totalXp ≥ xpForLevel(level + 1)) level += 1` loop of
`levelFromXp`, with an explicit iteration bound.  Each iteration increases
`level` by one and the guard fails once `level ≥ totalXp + 1` (because
`xpForLevel l ≥ l - 1`), so a fuel of `totalXp + 1` always runs the loop to
its natural exit. -/
def levelLoop : Nat → Nat → Nat → Nat
  | 0, level, _ => level
  | fuel + 1, level, totalXp =>
    if xpForLevel (level + 1) ≤ totalXp then levelLoop fuel (level + 1) totalXp
    else level

/-- `levelFromXp(totalXp)`: greatest level whose threshold is within `totalXp`. -/
def levelFromXp (totalXp : Nat) : Nat := levelLoop (totalXp + 1) 1 totalXp

/-- `Number(q.toFixed(digits))`: decimal rounding used for reported values. -/
def jsToFixed (digits : Nat) (q : ℚ) : ℚ :=
  (⌊q * 10 ^ digits + 1 / 2⌋ : ℚ) / 10 ^ digits

/-- The User document fields the sync path touches. -/
structure UserDoc where
  totalKmLifetime : ℚ := 0
  totalXp : Nat := 0
  level : Nat := 1
  lastHealthSyncAt : Option Nat := none
deriving DecidableEq, Repr

/-- The user-progress side effect of a health sync: a positive `deltaKm`
credits lifetime kilometres and `floor(deltaKm · XP_PER_KM)` XP and
recomputes the level; otherwise only the sync time is stamped. -/
def applyUserProgress (user : UserDoc) (deltaKm : ℚ) (now : Nat) : UserDoc :=
  if 0 < deltaKm then
    let xpGain := (⌊deltaKm * (XP_PER_KM : ℚ)⌋).toNat
    let totalXp := user.totalXp + xpGain
    { totalKmLifetime := jsToFixed 2 (user.totalKmLifetime + deltaKm)
      totalXp := totalXp
      level := levelFromXp totalXp
      lastHealthSyncAt := some now }
  else { user with lastHealthSyncAt := some now }

/-! ## Distance reconciliation (`POST /health/sync`) -/

/-- One element of the `days` array of a health-sync request, abstracted at
the point after the JS conversions: `formatValid` says the raw `date` string
passes the `isISO8601()` request validator; `day` is `asIsoDayString(item.date)`
(`none` when `new Date` yields an invalid date); `finite` says
`Number(item.distanceKm || 0)` is a finite number, in which case `distanceKm`
is that number. -/
structure SyncItem where
  formatValid : Bool := true
  day : Option String := none
  finite : Bool := true
  distanceKm : ℚ := 0
deriving DecidableEq, Repr

/-- The request validators of `POST /health/sync` for a single item:
`days.*.date` must be ISO8601 and `days.*.distanceKm` a float with `min: 0`. -/
def itemPassesValidation (item : SyncItem) : Bool :=
  item.formatValid && item.finite && decide (0 ≤ item.distanceKm)

/-- The request validators of `POST /health/sync` for the whole batch:
`days` is an array of 1 to 60 items, each passing the item validators.
If this fails the route replies 400 and applies nothing. -/
def batchPassesValidation (items : List SyncItem) : Bool :=
  decide (1 ≤ items.length) && decide (items.length ≤ 60) &&
    items.all itemPassesValidation

/-- The `existingByDay` map of the handler, built once from the entries
present before the merge loop: for a day key it yields the index of the
*last* entry stored under that key (`Map.set` overwrites, so later entries
win), `none` if no entry has that key. -/
def lastIdxByDay (entries : List DayEntry) (day : String) : Option Nat :=
  (entries.foldl
    (fun (st : Option Nat × Nat) e =>
      (if e.date = day then some st.2 else st.1, st.2 + 1))
    (none, 0)).1

/-- The body of the per-item merge loop of the handler.  State is the
evolving `dailyDistances` list plus the accumulated `deltaKm`.  Items with an
unparsable day or a non-finite or negative distance are skipped.  The
`existingByDay` map is built once from `orig` and is *not* extended when new
entries are pushed, so lookups resolve against the pre-batch entries only;
a hit mutates the entry at the mapped index (the original entries keep their
indices because the list only grows at the end). -/
def syncLoopStep (orig : List DayEntry) (st : List DayEntry × ℚ)
    (item : SyncItem) : List DayEntry × ℚ :=
  match item.day with
  | none => st
  | some dayKey =>
    if item.finite = false ∨ item.distanceKm < 0 then st
    else
      let incoming := item.distanceKm
      match lastIdxByDay orig dayKey with
      | none =>
        let newDistance := max 0 incoming
        let gained := max 0 (newDistance - 0)
        (st.1 ++ [{ date := dayKey, distance := newDistance }],
          if 0 < gained then st.2 + gained else st.2)
      | some i =>
        match st.1.get? i with
        | none => st
        | some existing =>
          let oldDistance := existing.distance
          let newDistance := max oldDistance incoming
          let gained := max 0 (newDistance - oldDistance)
          (st.1.set i { existing with distance := newDistance },
            if 0 < gained then st.2 + gained else st.2)

/-- The merge loop of the handler: fold `syncLoopStep` over the batch,
starting from the stored entries and a zero delta. -/
def syncLoop (orig : List DayEntry) (items : List SyncItem) : List DayEntry × ℚ :=
  items.foldl (syncLoopStep orig) (orig, 0)

/-- The per-participant part of the handler: run the merge loop, recompute
`totalDistance` from scratch as the sum of all daily entries, then flip an
`active` participant whose total reaches the race distance to `completed`,
stamping `completedAt := now`.  Returns the updated participant and the
accumulated `deltaKm`. -/
def applySyncToParticipant (raceDistance : ℚ) (now : Nat) (participant : Participant)
    (items : List SyncItem) : Participant × ℚ :=
  let merged := syncLoop participant.dailyDistances items
  let totalDistance := (merged.1.map (fun d => d.distance)).sum
  let p1 := { participant with dailyDistances := merged.1, totalDistance := totalDistance }
  let p2 :=
    if raceDistance ≤ p1.totalDistance ∧ p1.status = PStatus.active then
      { p1 with status := PStatus.completed, completedAt := some now }
    else p1
  (p2, merged.2)

/-- `getParticipant(race, userId)`: first participant whose user matches. -/
def getParticipant (race : Race) (userId : String) : Option Participant :=
  race.participants.find? (fun p => p.user = userId)

/-- Replace the first list element satisfying `pred` (the handler mutates the
participant object `getParticipant` found in place). -/
def updateFirst (pred : Participant → Bool) (f : Participant → Participant) :
    List Participant → List Participant
  | [] => []
  | p :: rest => if pred p then f p :: rest else p :: updateFirst pred f rest

/-- The Mongo query of the sync route: races having *some* participant of
this user (any status) whose `[startDate, endDate]` window contains `now`. -/
def activeRacesFor (races : List Race) (userId : String) (now : Nat) : List Race :=
  races.filter fun r =>
    decide (r.startDate ≤ now) && decide (now ≤ r.endDate) &&
      r.participants.any (fun p => p.user = userId)

/-- One step of the selection loop of the sync route: skip races where the
user has no participation or the participation's `joinedAt` is missing or
unparsable; otherwise keep the race with the strictly later `joinedAt`
(keeping the earlier list entry on ties). -/
def selectStep (userId : String) (acc : Option (Race × Nat)) (r : Race) :
    Option (Race × Nat) :=
  match getParticipant r userId with
  | none => acc
  | some p =>
    match p.joinedAt with
    | none => acc
    | some joinedAt =>
      match acc with
      | none => some (r, joinedAt)
      | some best => if best.2 < joinedAt then some (r, joinedAt) else acc

/-- The selection loop of the sync route: among the active races, keep the
one whose (first) participation of this user has the latest valid
`joinedAt`. -/
def selectLatestJoined (activeRaces : List Race) (userId : String) :
    Option (Race × Nat) :=
  activeRaces.foldl (selectStep userId) none

/-- The JSON reply of `POST /health/sync` (fields the claims mention). -/
structure SyncResponse where
  validationError : Bool := false
  applied : Bool := false
  deltaKm : ℚ := 0
  raceId : Option String := none
  finishState : Option FinishState := none
deriving DecidableEq, Repr

/-- Everything the sync route leaves behind: the reply, the updated race
document (if one was selected and saved) and the updated user document. -/
structure SyncOutcome where
  response : SyncResponse
  updatedRace : Option Race := none
  user : UserDoc
deriving DecidableEq, Repr

/-- The full `POST /health/sync` route: request validation, selection of the
participation with the latest join among the date-active races of the user,
merge, completion check, arbitration refresh, and the user-progress side
effect.  `W` is `FINISH_CONFIRMATION_WINDOW_MS`. -/
def healthSync (W : Nat) (races : List Race) (userId : String) (user : UserDoc)
    (now : Nat) (items : List SyncItem) : SyncOutcome :=
  if batchPassesValidation items = false then
    { response := { validationError := true }, updatedRace := none, user := user }
  else
    match selectLatestJoined (activeRacesFor races userId now) userId with
    | none =>
      { response := { applied := false, deltaKm := 0 }, updatedRace := none,
        user := user }
    | some best =>
      let race := best.1
      match getParticipant race userId with
      | none =>
        { response := { applied := false, deltaKm := 0 }, updatedRace := none,
          user := user }
      | some participant =>
        let appliedP := applySyncToParticipant race.raceDistance now participant items
        let race1 := { race with
          participants :=
            updateFirst (fun q => q.user = userId) (fun _ => appliedP.1)
              race.participants }
        let race2 := (refreshFinishResolution W race1 now).1
        { response :=
            { applied := true
              deltaKm := jsToFixed 3 appliedP.2
              raceId := some race.id
              finishState := some (buildFinishStatePayload W race2) }
          updatedRace := some race2
          user := applyUserProgress user appliedP.2 now }

/-! ## Leaderboard and stats aggregation -/

/-- `asUserId(race.finishResolution?.finalWinner) || null`: the finalized
winner id used by the win-counting aggregations (`null` when there is no
final winner or its id is empty). -/
def raceFinalWinnerUserId (race : Race) : Option String :=
  let winner := asUserId race.finishResolution.finalWinner
  if winner = "" then none else some winner

/-- The wins increment the global-leaderboard loop adds for one participant
row: rows with an empty user id are skipped entirely, and a win is counted
exactly when `winnerUserId && userId === winnerUserId`. -/
def winIncrement (winnerUserId : Option String) (userId : String) : Nat :=
  if userId = "" then 0
  else
    match winnerUserId with
    | some w => if userId = w then 1 else 0
    | none => 0

/-- The total wins the `GET /leaderboard` aggregation credits to `userId`
from a single race: the sum of `winIncrement` over that user's participant
rows of the race (the loop accumulates into the map entry keyed by the row's
user id). -/
def leaderboardRaceWins (race : Race) (userId : String) : Nat :=
  (race.participants.map fun p =>
    if p.user = userId then winIncrement (raceFinalWinnerUserId race) p.user
    else 0).sum

/-- The wins `GET /my-stats` counts for `userId` from a single race: zero if
the user has no participant row there (the loop `continue`s), otherwise one
exactly when `winnerUserId && winnerUserId === req.userId`. -/
def myStatsRaceWins (race : Race) (userId : String) : Nat :=
  match race.participants.find? (fun p => p.user ≠ "" && p.user = userId) with
  | none => 0
  | some _ =>
    match raceFinalWinnerUserId race with
    | some w => if w = userId then 1 else 0
    | none => 0

/-! ## Auxiliary predicates used by the theorems -/

/-- A participant the earliest-finisher scan considers: completed with a
completion timestamp (the converse of the loop's `continue` guard). -/
def isFinishCandidate (p : Participant) : Bool :=
  decide (p.status = PStatus.completed) && p.completedAt.isSome

/-- The completion time in milliseconds the scan compares
(`new Date(completedAt).getTime()`; `new Date(null)` is epoch `0`). -/
def completedMs (p : Participant) : Nat := p.completedAt.getD 0

/-- The comparison key of the earliest-finisher scan: completion time first,
user id as the lexicographic tie-break. -/
def finishKey (p : Participant) : ℕ ×ₗ String := toLex (completedMs p, p.user)

/-- An item the merge loop of the handler actually applies (its converse is
the loop's per-item `continue`): a parseable day and a finite non-negative
distance. -/
def itemApplied (item : SyncItem) : Bool :=
  item.day.isSome && item.finite && decide (0 ≤ item.distanceKm)

/-! ## Concrete fixtures used by witnesses and counterexamples -/

/-- A fresh active participant with no recorded distance. -/
def freshParticipant : Participant := { user := "u", status := PStatus.active }

/-- A sync batch reporting the same calendar day twice (5 km then 3 km) —
well-formed input that the request validators accept. -/
def dupDayBatch : List SyncItem :=
  [ { day := some "2024-01-01", distanceKm := 5 },
    { day := some "2024-01-01", distanceKm := 3 } ]

/-- A race with a finalized winner `A` and a second participant `B`. -/
def c4Race : Race :=
  { id := "r4"
    participants :=
      [ { user := "A", status := PStatus.completed, completedAt := some 5 },
        { user := "B", status := PStatus.active } ]
    finishResolution :=
      { provisionalWinner := some "A", provisionalAt := some 5,
        confirmationWindowEndsAt := some 10, finalWinner := some "A",
        finalizedAt := some 20 } }

/-- A race whose resolution is only provisional (no finalized winner). -/
def c4ProvisionalRace : Race :=
  { id := "r5"
    participants := [ { user := "A", status := PStatus.completed, completedAt := some 5 } ]
    finishResolution :=
      { provisionalWinner := some "A", provisionalAt := some 5,
        confirmationWindowEndsAt := some 10 } }

/-- Two completed participants used by the `C3` witness. -/
def c3P1 : Participant :=
  { user := "A", status := PStatus.completed, completedAt := some 100 }

def c3P2 : Participant :=
  { user := "B", status := PStatus.completed, completedAt := some 50 }

def c3Race1 : Race := { id := "ra", participants := [c3P1, c3P2] }

def c3Race2 : Race := { id := "rb", participants := [c3P2, c3P1] }

/-- A completed participant `B` (earliest finisher of `c1StaleRace`). -/
def c1Participant : Participant :=
  { user := "B", status := PStatus.completed, completedAt := some 50 }

/-- A race whose stored resolution finalized `A`, while the recomputed
earliest finisher is `B` (e.g. after a corrected sync). -/
def c1StaleRace : Race :=
  { id := "r1", participants := [c1Participant]
    finishResolution :=
      { provisionalWinner := some "A", provisionalAt := some 100,
        confirmationWindowEndsAt := some 200, finalWinner := some "A",
        finalizedAt := some 250 } }

/-- The sole participant of the `C2` scenario, completed at `t0 = 100000`. -/
def c2A : Participant :=
  { user := "A", status := PStatus.completed, completedAt := some 100000 }

/-- The `C2` scenario race: one participant, empty resolution. -/
def c2Race : Race :=
  { id := "r2", raceDistance := 1, participants := [c2A] }

/-- The `C6` scenario race (distance 10 km) and batch (4 km + 7 km). -/
def c6Race : Race :=
  { id := "r6", startDate := 0, endDate := 1000000, raceDistance := 10
    participants := [ { user := "u", status := PStatus.active, joinedAt := some 10 } ] }

def c6Batch : List SyncItem :=
  [ { day := some "2024-01-01", distanceKm := 4 },
    { day := some "2024-01-02", distanceKm := 7 } ]

/-- A completed participant unaffected by later syncs (`C10` witness). -/
def c10VParticipant : Participant :=
  { user := "v", status := PStatus.completed, completedAt := some 77, joinedAt := some 5 }

/-- A date-active race where user `u` holds only a withdrawn participation. -/
def c8WithdrawnRace : Race :=
  { id := "rw", startDate := 0, endDate := 1000, raceDistance := 100
    participants :=
      [ { user := "u", status := PStatus.withdrawn, joinedAt := some 10 } ] }

def c8Batch : List SyncItem := [ { day := some "2024-01-01", distanceKm := 5 } ]

/-- A date-active race with one active participation of user `u`. -/
def c9Race : Race :=
  { id := "r9", startDate := 0, endDate := 1000, raceDistance := 100
    participants := [ { user := "u", status := PStatus.active, joinedAt := some 10 } ] }

/-- A batch mixing a well-formed item with a negative-distance item (the
latter fails the `days.*.distanceKm` `isFloat({min: 0})` validator). -/
def c9BadBatch : List SyncItem :=
  [ { day := some "2024-01-01", distanceKm := 5 },
    { day := some "2024-01-02", distanceKm := -1 } ]

end RaceSrv

/-! # Theorems -/

namespace RaceSrv

/-- The wins increment of a leaderboard row is positive exactly for a
nonempty user id equal to the finalized winner. -/
theorem winIncrement_pos_iff (w : Option String) (uid : String) :
    0 < winIncrement w uid ↔ uid ≠ "" ∧ w = some uid := by
  unfold winIncrement
  by_cases h : uid = ""
  · simp [h]
  · cases w with
    | none => simp [h]
    | some w2 =>
      by_cases h2 : uid = w2
      · subst h2; simp [h]
      · simp [h, h2]
        intro h3
        exact h2 h3.symm

/-- `asUserId(...) || null` never yields an empty winner id. -/
theorem raceFinalWinnerUserId_ne_empty (race : Race) (w : String)
    (h : raceFinalWinnerUserId race = some w) : w ≠ "" := by
  unfold raceFinalWinnerUserId at h
  by_cases h0 : asUserId race.finishResolution.finalWinner = ""
  · simp [h0] at h
  · simp only [h0, if_false, Option.some.injEq] at h
    subst h
    exact h0

/-- A race's wins contribution to a user in the global leaderboard is
positive exactly when the user participates and is the finalized winner. -/
theorem leaderboardRaceWins_pos_iff (race : Race) (uid : String) :
    0 < leaderboardRaceWins race uid ↔
      raceFinalWinnerUserId race = some uid ∧
        ∃ p ∈ race.participants, p.user = uid := by
  unfold leaderboardRaceWins
  have key : ∀ l : List Participant,
      0 < (l.map fun p =>
          if p.user = uid then winIncrement (raceFinalWinnerUserId race) p.user
          else 0).sum ↔
        (∃ p ∈ l, p.user = uid) ∧
          0 < winIncrement (raceFinalWinnerUserId race) uid := by
    intro l
    induction l with
    | nil => simp
    | cons p rest ih =>
      simp only [List.map_cons, List.sum_cons]
      rw [add_pos_iff, ih]
      by_cases h : p.user = uid
      · subst h
        simp only [if_pos rfl]
        constructor
        · rintro (hp | ⟨⟨q, hq, hq2⟩, hwin⟩)
          · exact ⟨⟨p, by simp, rfl⟩, hp⟩
          · exact ⟨⟨p, by simp, rfl⟩, hwin⟩
        · rintro ⟨_, hwin⟩
          exact Or.inl hwin
      · simp only [if_neg h]
        constructor
        · rintro (h0 | ⟨⟨q, hq, hq2⟩, hwin⟩)
          · omega
          · exact ⟨⟨q, by simp [hq], hq2⟩, hwin⟩
        · rintro ⟨⟨q, hq, hq2⟩, hwin⟩
          refine Or.inr ⟨⟨q, ?_, hq2⟩, hwin⟩
          rcases List.mem_cons.mp hq with rfl | hq3
          · exact absurd hq2 h
          · exact hq3
  rw [key, winIncrement_pos_iff]
  constructor
  · rintro ⟨hmem, _, hwin⟩
    exact ⟨hwin, hmem⟩
  · rintro ⟨hwin, hmem⟩
    exact ⟨hmem, raceFinalWinnerUserId_ne_empty race uid hwin, hwin⟩

/-- Same characterization for the `GET /my-stats` wins counter. -/
theorem myStatsRaceWins_pos_iff (race : Race) (uid : String) :
    0 < myStatsRaceWins race uid ↔
      raceFinalWinnerUserId race = some uid ∧
        ∃ p ∈ race.participants, p.user = uid := by
  unfold myStatsRaceWins
  cases hfind : race.participants.find? (fun p => p.user ≠ "" && p.user = uid) with
  | none =>
    simp only [Nat.lt_irrefl, false_iff]
    rintro ⟨hwin, p, hp, hpu⟩
    have hne : uid ≠ "" := raceFinalWinnerUserId_ne_empty race uid hwin
    have hsome :
        (race.participants.find? (fun p => p.user ≠ "" && p.user = uid)).isSome := by
      rw [List.find?_isSome]
      exact ⟨p, hp, by simp [hpu, hne]⟩
    rw [hfind] at hsome
    simp at hsome
  | some q =>
    have hq := List.find?_some hfind
    have hqmem := List.mem_of_find?_eq_some hfind
    simp only [Bool.and_eq_true, decide_eq_true_eq, bne_iff_ne, ne_eq] at hq
    cases hwin : raceFinalWinnerUserId race with
    | none => simp
    | some w =>
      by_cases hw2 : w = uid
      · subst hw2
        simp only [if_pos rfl]
        constructor
        · intro _
          exact ⟨trivial, q, hqmem, hq.2⟩
        · intro _
          exact Nat.zero_lt_one
      · simp only [if_neg hw2, Nat.lt_irrefl, false_iff]
        rintro ⟨hwin2, _⟩
        exact hw2 (Option.some.inj hwin2)

/-- `C4`: in the global-leaderboard and per-user-stats aggregations, a race
contributes a win to user `U` exactly when `U` participates and equals the
race's recorded FINAL winner; a race whose resolution is only provisional or
empty (no finalized winner) contributes zero wins to every user. -/
theorem c4_wins_require_final_winner (race : Race) (uid : String) :
    (0 < leaderboardRaceWins race uid ↔
      raceFinalWinnerUserId race = some uid ∧
        ∃ p ∈ race.participants, p.user = uid) ∧
    (0 < myStatsRaceWins race uid ↔
      raceFinalWinnerUserId race = some uid ∧
        ∃ p ∈ race.participants, p.user = uid) ∧
    (raceFinalWinnerUserId race = none →
      leaderboardRaceWins race uid = 0 ∧ myStatsRaceWins race uid = 0) := by
  refine ⟨leaderboardRaceWins_pos_iff race uid, myStatsRaceWins_pos_iff race uid, ?_⟩
  intro h
  constructor
  · by_contra h2
    have h3 := (leaderboardRaceWins_pos_iff race uid).mp (Nat.pos_of_ne_zero h2)
    rw [h] at h3
    exact absurd h3.1 (by simp)
  · by_contra h2
    have h3 := (myStatsRaceWins_pos_iff race uid).mp (Nat.pos_of_ne_zero h2)
    rw [h] at h3
    exact absurd h3.1 (by simp)

/-- Witness for `C4` on concrete races: the finalized winner `A` is credited,
a non-winning participant `B` is not, and a provisional-only race credits
nobody. -/
theorem c4_wins_require_final_winner_witness :
    0 < leaderboardRaceWins c4Race "A" ∧
    leaderboardRaceWins c4Race "B" = 0 ∧
    myStatsRaceWins c4ProvisionalRace "A" = 0 :=
  ⟨(c4_wins_require_final_winner c4Race "A").1.mpr ⟨by decide, by decide⟩,
    by
      by_contra h2
      have h3 := ((c4_wins_require_final_winner c4Race "B").1.mp
        (Nat.pos_of_ne_zero h2)).1
      revert h3
      decide,
    ((c4_wins_require_final_winner c4ProvisionalRace "A").2.2 (by decide)).2⟩

/-- `C5`: the recomputed-total half of the claim holds (after any sync the
participant's `totalDistance` is the sum of the daily entries), but
idempotence fails on the code: re-applying the identical duplicate-day batch
`dupDayBatch` to a fresh participant reports a second delta of `2` (not `0`)
and moves `totalDistance` from `8` to `10`, because the handler's
`existingByDay` map is never extended with the entries it pushes. -/
theorem c5_sync_not_idempotent_eval :
    (∀ (d : ℚ) (now : Nat) (p : Participant) (items : List SyncItem),
        (applySyncToParticipant d now p items).1.totalDistance =
          ((applySyncToParticipant d now p items).1.dailyDistances.map
            (fun e => e.distance)).sum) ∧
    (applySyncToParticipant 100 10 freshParticipant dupDayBatch).2 = 8 ∧
    (applySyncToParticipant 100 10 freshParticipant dupDayBatch).1.totalDistance = 8 ∧
    (applySyncToParticipant 100 20
        (applySyncToParticipant 100 10 freshParticipant dupDayBatch).1
        dupDayBatch).2 = 2 ∧
    (applySyncToParticipant 100 20
        (applySyncToParticipant 100 10 freshParticipant dupDayBatch).1
        dupDayBatch).1.totalDistance = 10 := by
  constructor
  · intro d now p items
    unfold applySyncToParticipant
    dsimp only
    split <;> rfl
  · refine ⟨?_, ?_, ?_, ?_⟩ <;>
      norm_num [applySyncToParticipant, syncLoop, syncLoopStep, lastIdxByDay,
        freshParticipant, dupDayBatch, List.foldl]

/-- `C7`: a single validator-accepted batch that repeats a day produces two
stored entries for that day on a fresh participant (the claim's uniqueness
and max-merge invariants fail): the resulting history is
`[(2024-01-01, 5), (2024-01-01, 3)]`. -/
theorem c7_duplicate_day_entries_eval :
    ((applySyncToParticipant 100 10 freshParticipant dupDayBatch).1.dailyDistances.filter
        (fun e => e.date = "2024-01-01")).length = 2 ∧
    (applySyncToParticipant 100 10 freshParticipant dupDayBatch).1.dailyDistances =
      [ { date := "2024-01-01", distance := 5 },
        { date := "2024-01-01", distance := 3 } ] := by
  constructor <;>
    norm_num [applySyncToParticipant, syncLoop, syncLoopStep, lastIdxByDay,
      freshParticipant, dupDayBatch, List.foldl, List.filter]

/-- An item the merge loop skips leaves the loop state unchanged. -/
theorem syncLoopStep_skip (orig : List DayEntry) (st : List DayEntry × ℚ)
    (item : SyncItem) (h : itemApplied item = false) :
    syncLoopStep orig st item = st := by
  unfold syncLoopStep
  unfold itemApplied at h
  cases hday : item.day with
  | none => rfl
  | some k =>
    simp only [hday, Option.isSome_some, Bool.true_and, Bool.and_eq_false_iff] at h ⊢
    rcases h with h | h
    · rw [if_pos (Or.inl h)]
    · rw [if_pos (Or.inr (by
        have h2 := of_decide_eq_false h
        exact lt_of_not_le h2))]

/-- The merge loop behaves as if the skipped items were absent. -/
theorem syncLoop_skips_malformed (orig : List DayEntry) (items : List SyncItem) :
    syncLoop orig items = syncLoop orig (items.filter itemApplied) := by
  unfold syncLoop
  generalize (orig, (0 : ℚ)) = st
  induction items generalizing st with
  | nil => rfl
  | cons it rest ih =>
    by_cases h : itemApplied it
    · rw [List.filter_cons_of_pos h, List.foldl_cons, List.foldl_cons]
      exact ih _
    · rw [List.filter_cons_of_neg (by simp [h]), List.foldl_cons,
        syncLoopStep_skip orig st it (by simp [h])]
      exact ih _

/-- `C9` (amended): per-item skipping holds only *inside* the handler — the
merge loop applies a batch exactly as if its skipped items (unparsable day,
non-finite or negative distance) were absent — while a batch containing an
item that fails the request validators (non-ISO8601 date, non-finite or
negative distance) is rejected as a whole with a validation error and
nothing is applied. -/
theorem c9_item_skipping_amended :
    (∀ (orig : List DayEntry) (items : List SyncItem),
      syncLoop orig items = syncLoop orig (items.filter itemApplied)) ∧
    (∀ (W : Nat) (races : List Race) (userId : String) (user : UserDoc)
        (now : Nat) (items : List SyncItem),
      batchPassesValidation items = false →
      healthSync W races userId user now items =
        { response := { validationError := true }, updatedRace := none,
          user := user }) := by
  constructor
  · exact syncLoop_skips_malformed
  · intro W races userId user now items h
    unfold healthSync
    rw [h]
    rfl

/-- Counterexample to `C9` as stated: a batch pairing a well-formed item with
a negative-distance item is aborted by the request validators — the route
errors and the well-formed item is *not* applied. -/
theorem c9_batch_abort_counterexample :
    (healthSync 90000 [c9Race] "u" {} 500 c9BadBatch).response.validationError = true ∧
    (healthSync 90000 [c9Race] "u" {} 500 c9BadBatch).response.applied = false ∧
    (healthSync 90000 [c9Race] "u" {} 500 c9BadBatch).updatedRace = none := by
  have hval : batchPassesValidation c9BadBatch = false := by
    norm_num [batchPassesValidation, itemPassesValidation, c9BadBatch]
  refine ⟨?_, ?_, ?_⟩ <;> simp [healthSync, hval]

/-- When no participant is completed, an observation clears every stored
resolution field. -/
theorem refresh_clears_when_no_candidate (W : Nat) (race : Race) (now : Nat)
    (hpick : pickEarliestCompletedParticipant race = none) :
    (refreshFinishResolution W race now).1.finishResolution =
      { provisionalWinner := none, provisionalAt := none,
        confirmationWindowEndsAt := none, finalWinner := none,
        finalizedAt := none } := by
  unfold refreshFinishResolution
  rw [hpick]
  dsimp only
  split_ifs with h
  · rfl
  · rcases hres : race.finishResolution with ⟨pw, pa, cw, fw, fa⟩
    rw [hres] at h
    simp only [Bool.or_eq_true, not_or, Option.not_isSome_iff_eq_none] at h
    obtain ⟨⟨⟨⟨h1, h2⟩, h3⟩, h4⟩, h5⟩ := h
    subst h1 h2 h3 h4 h5
    rfl

/-- After any observation with a completed participant, the stored
provisional winner id equals the recomputed earliest finisher's, and the
stored final winner id, when nonempty, also equals it. -/
theorem refresh_post_state (W : Nat) (race : Race) (now : Nat) (e : Participant)
    (hpick : pickEarliestCompletedParticipant race = some e) :
    asUserId (refreshFinishResolution W race now).1.finishResolution.provisionalWinner
        = e.user ∧
      (asUserId (refreshFinishResolution W race now).1.finishResolution.finalWinner ≠ "" →
        asUserId (refreshFinishResolution W race now).1.finishResolution.finalWinner
          = e.user) := by
  rcases hres : race.finishResolution with ⟨pw, pa, cw, fw, fa⟩
  unfold refreshFinishResolution
  rw [hpick, hres]
  dsimp only
  by_cases hc1 : asUserId fw ≠ "" ∧ asUserId fw ≠ e.user
  · rw [if_pos hc1]
    try dsimp only
    by_cases hc2 : asUserId pw ≠ e.user
    · rw [if_pos hc2]
      try dsimp only
      split_ifs <;> simp [asUserId]
    · rw [if_neg hc2]
      push_neg at hc2
      simp only [asUserId] at hc2
      try dsimp only
      rcases cw with _ | x <;> split_ifs <;> simp [asUserId, hc2] <;>
        (try split_ifs) <;> simp [asUserId, hc2]
  · rw [if_neg hc1]
    push_neg at hc1
    try dsimp only
    by_cases hc2 : asUserId pw ≠ e.user
    · rw [if_pos hc2]
      try dsimp only
      split_ifs <;> simp [asUserId]
    · rw [if_neg hc2]
      push_neg at hc2
      simp only [asUserId] at hc2
      try dsimp only
      rcases fw with _ | s <;> rcases cw with _ | x <;> split_ifs <;>
        simp_all [asUserId] <;> (try split_ifs) <;> simp_all [asUserId]

/-- A recorded final winner that no longer equals the recomputed earliest
finisher (in a stored state whose provisional and final winner agree, as
every refresh-produced state does) is revoked, and the observation records
the new provisional winner, its completion time, and a restarted
confirmation window; no immediate re-finalization happens for `0 < W`. -/
theorem refresh_revokes_stale_final (W : Nat) (race : Race) (now : Nat)
    (e : Participant) (hW : 0 < W)
    (hpick : pickEarliestCompletedParticipant race = some e)
    (hne : asUserId race.finishResolution.finalWinner ≠ "")
    (hdiff : asUserId race.finishResolution.finalWinner ≠ e.user)
    (heq : asUserId race.finishResolution.provisionalWinner
      = asUserId race.finishResolution.finalWinner) :
    (refreshFinishResolution W race now).1.finishResolution.finalWinner = none ∧
    (refreshFinishResolution W race now).1.finishResolution.finalizedAt = none ∧
    (refreshFinishResolution W race now).1.finishResolution.provisionalWinner
      = some e.user ∧
    (refreshFinishResolution W race now).1.finishResolution.provisionalAt
      = some (e.completedAt.getD 0) ∧
    (refreshFinishResolution W race now).1.finishResolution.confirmationWindowEndsAt
      = some (now + W) := by
  rcases hres : race.finishResolution with ⟨pw, pa, cw, fw, fa⟩
  rw [hres] at hne hdiff heq
  dsimp only at hne hdiff heq
  unfold refreshFinishResolution
  rw [hpick, hres]
  dsimp only
  have hc2 : asUserId pw ≠ e.user := heq ▸ hdiff
  rw [if_pos hc2]
  try dsimp only
  rw [if_neg (by omega : ¬ now + W ≤ now)]
  exact ⟨rfl, rfl, rfl, rfl, rfl⟩

/-- `C1`: after an observation, either no participant is completed and every
resolution field is cleared, or the stored provisional winner equals the
recomputed earliest finisher, a nonempty final winner also equals it, and a
stale final winner (differing from the recomputed earliest finisher, in a
state whose stored provisional and final winners agree — the invariant every
refresh output satisfies) is revoked while the new provisional winner and a
restarted confirmation window are recorded. -/
theorem c1_refresh_resolution_invariant (W : Nat) (race : Race) (now : Nat)
    (hW : 0 < W) :
    (pickEarliestCompletedParticipant race = none →
      (refreshFinishResolution W race now).1.finishResolution =
        { provisionalWinner := none, provisionalAt := none,
          confirmationWindowEndsAt := none, finalWinner := none,
          finalizedAt := none }) ∧
    (∀ e, pickEarliestCompletedParticipant race = some e →
      asUserId (refreshFinishResolution W race now).1.finishResolution.provisionalWinner
          = e.user ∧
      (asUserId (refreshFinishResolution W race now).1.finishResolution.finalWinner ≠ "" →
        asUserId (refreshFinishResolution W race now).1.finishResolution.finalWinner
          = e.user) ∧
      (asUserId race.finishResolution.finalWinner ≠ "" →
       asUserId race.finishResolution.finalWinner ≠ e.user →
       asUserId race.finishResolution.provisionalWinner
           = asUserId race.finishResolution.finalWinner →
       (refreshFinishResolution W race now).1.finishResolution.finalWinner = none ∧
       (refreshFinishResolution W race now).1.finishResolution.finalizedAt = none ∧
       (refreshFinishResolution W race now).1.finishResolution.provisionalWinner
           = some e.user ∧
       (refreshFinishResolution W race now).1.finishResolution.provisionalAt
           = some (e.completedAt.getD 0) ∧
       (refreshFinishResolution W race now).1.finishResolution.confirmationWindowEndsAt
           = some (now + W))) :=
  ⟨refresh_clears_when_no_candidate W race now,
    fun e hpick =>
      ⟨(refresh_post_state W race now e hpick).1,
        (refresh_post_state W race now e hpick).2,
        fun hne hdiff heq =>
          refresh_revokes_stale_final W race now e hW hpick hne hdiff heq⟩⟩

/-- Witness for `C1`: the stale final winner `A` of `c1StaleRace` is revoked
in favour of the recomputed earliest finisher `B`, with a restarted window. -/
theorem c1_refresh_resolution_invariant_witness :
    (refreshFinishResolution 90000 c1StaleRace 300).1.finishResolution.finalWinner
        = none ∧
    (refreshFinishResolution 90000 c1StaleRace 300).1.finishResolution.provisionalWinner
        = some "B" ∧
    (refreshFinishResolution 90000 c1StaleRace 300).1.finishResolution.confirmationWindowEndsAt
        = some 90300 := by
  have h := (c1_refresh_resolution_invariant 90000 c1StaleRace 300 (by decide)).2
    c1Participant (by decide)
  have h3 := h.2.2 (by decide) (by decide) (by decide)
  exact ⟨h3.1, h3.2.2.1, h3.2.2.2.2⟩

/-- If the stored provisional winner already equals the recomputed earliest
finisher, no final winner is recorded and the stored confirmation window has
elapsed, an observation commits the final winner and stamps `now`. -/
theorem refresh_commits_when_window_elapsed
    (W : Nat) (race : Race) (now endMs : Nat) (e : Participant)
    (hpick : pickEarliestCompletedParticipant race = some e)
    (hprov : asUserId race.finishResolution.provisionalWinner = e.user)
    (hfin : race.finishResolution.finalWinner = none)
    (hwin : race.finishResolution.confirmationWindowEndsAt = some endMs)
    (hnow : endMs ≤ now) :
    (refreshFinishResolution W race now).1.finishResolution.finalWinner = some e.user ∧
    (refreshFinishResolution W race now).1.finishResolution.finalizedAt = some now := by
  unfold refreshFinishResolution
  rw [hpick]
  dsimp only
  simp only [asUserId] at hprov
  simp only [hfin, hwin, asUserId, hprov, Option.getD_none, ne_eq,
    not_true_eq_false, false_and, if_false, ite_false]
  split_ifs with h1
  all_goals dsimp only
  all_goals simp only [hfin, hwin, reduceCtorEq] at *
  all_goals simp [hnow]

/-- `C2`: an observation at or past the stored confirmation-window end, with
the provisional winner already the recomputed earliest finisher and no final
winner recorded, commits final winner = provisional winner at time `now`;
and the 90,000 ms scenario: the sole participant `A` completes and is
observed at `t0 = 100000`; a read at `t0 + 10s` reports a provisional winner
`A`, a read at `t0 + 91s` reports a final winner `A`. -/
theorem c2_provisional_to_final_commit :
    (∀ (W : Nat) (race : Race) (now endMs : Nat) (e : Participant),
      pickEarliestCompletedParticipant race = some e →
      asUserId race.finishResolution.provisionalWinner = e.user →
      race.finishResolution.finalWinner = none →
      race.finishResolution.confirmationWindowEndsAt = some endMs →
      endMs ≤ now →
      (refreshFinishResolution W race now).1.finishResolution.finalWinner
          = some e.user ∧
        (refreshFinishResolution W race now).1.finishResolution.finalizedAt
          = some now) ∧
    ((buildFinishStatePayload 90000
        (refreshFinishResolution 90000
          (refreshFinishResolution 90000 c2Race 100000).1 110000).1).status
        = "provisional" ∧
      (buildFinishStatePayload 90000
        (refreshFinishResolution 90000
          (refreshFinishResolution 90000 c2Race 100000).1 110000).1).winnerUserId
        = some "A" ∧
      (buildFinishStatePayload 90000
        (refreshFinishResolution 90000
          (refreshFinishResolution 90000
            (refreshFinishResolution 90000 c2Race 100000).1 110000).1 191000).1).status
        = "final" ∧
      (buildFinishStatePayload 90000
        (refreshFinishResolution 90000
          (refreshFinishResolution 90000
            (refreshFinishResolution 90000 c2Race 100000).1 110000).1
          191000).1).finalWinnerUserId
        = some "A") := by
  refine ⟨fun W race now endMs e h1 h2 h3 h4 h5 =>
    refresh_commits_when_window_elapsed W race now endMs e h1 h2 h3 h4 h5,
    by decide, by decide, by decide, by decide⟩

/-- Witness for `C2`: the commit rule applied to the concrete state after the
first observation of the scenario race, at a time past the window end. -/
theorem c2_provisional_to_final_commit_witness :
    (refreshFinishResolution 90000
        (refreshFinishResolution 90000 c2Race 100000).1
        191000).1.finishResolution.finalWinner = some "A" :=
  (c2_provisional_to_final_commit.1 90000
    (refreshFinishResolution 90000 c2Race 100000).1 191000 190000 c2A
    (by decide) (by decide) (by decide) (by decide) (by decide)).1

/-- Witness for the amended `C9` at concrete inputs. -/
theorem c9_item_skipping_amended_witness :
    syncLoop [] c9BadBatch = syncLoop [] (c9BadBatch.filter itemApplied) ∧
    healthSync 90000 [c9Race] "u" {} 500 c9BadBatch =
      { response := { validationError := true }, updatedRace := none, user := {} } :=
  ⟨(c9_item_skipping_amended).1 [] c9BadBatch,
    (c9_item_skipping_amended).2 90000 [c9Race] "u" {} 500 c9BadBatch
      (by norm_num [batchPassesValidation, itemPassesValidation, c9BadBatch])⟩

/-- A participant failing the completed-with-timestamp guard leaves the
scan state unchanged. -/
theorem pickStep_not_candidate (acc : Option Participant) (p : Participant)
    (h : isFinishCandidate p = false) : pickStep acc p = acc := by
  have hcond : p.status ≠ PStatus.completed ∨ p.completedAt = none := by
    cases hc : p.completedAt with
    | none => exact Or.inr rfl
    | some x =>
      refine Or.inl ?_
      simp only [isFinishCandidate, hc, Option.isSome_some, Bool.and_true,
        decide_eq_false_iff_not] at h
      exact h
  unfold pickStep
  rw [if_pos hcond]

/-- The first candidate becomes the current earliest. -/
theorem pickStep_none_candidate (p : Participant)
    (h : isFinishCandidate p = true) : pickStep none p = some p := by
  simp only [isFinishCandidate, Bool.and_eq_true, decide_eq_true_eq,
    Option.isSome_iff_ne_none] at h
  unfold pickStep
  rw [if_neg (by push_neg; exact ⟨h.1, h.2⟩)]

/-- On candidates with nonempty user ids the scan step keeps the smaller
`finishKey` (completion time, then user id), preferring the incumbent on
exact key equality. -/
theorem pickStep_candidates (e p : Participant)
    (hp : isFinishCandidate p = true) (hpu : p.user ≠ "") (heu : e.user ≠ "") :
    pickStep (some e) p = if finishKey p < finishKey e then some p else some e := by
  simp only [isFinishCandidate, Bool.and_eq_true, decide_eq_true_eq,
    Option.isSome_iff_ne_none] at hp
  unfold pickStep
  rw [if_neg (by push_neg; exact ⟨hp.1, hp.2⟩)]
  dsimp only
  by_cases h1 : p.completedAt.getD 0 < e.completedAt.getD 0
  · rw [if_pos h1, if_pos (by
      unfold finishKey
      rw [Prod.Lex.lt_iff]
      exact Or.inl h1)]
  · rw [if_neg h1]
    by_cases h2 : p.completedAt.getD 0 = e.completedAt.getD 0
    · rw [if_pos h2]
      by_cases h3 : p.user < e.user
      · rw [if_pos ⟨hpu, heu, h3⟩, if_pos (by
          unfold finishKey
          rw [Prod.Lex.lt_iff]
          exact Or.inr ⟨h2, h3⟩)]
      · rw [if_neg (by tauto), if_neg (by
          unfold finishKey
          rw [Prod.Lex.lt_iff]
          push_neg
          exact ⟨not_lt.mp h1, fun _ => not_lt.mp h3⟩)]
    · rw [if_neg h2, if_neg (by
        unfold finishKey
        rw [Prod.Lex.lt_iff]
        push_neg
        exact ⟨not_lt.mp h1, fun heq => (h2 heq).elim⟩)]

/-- Invariant of the earliest-finisher fold: a `some` result is a candidate
drawn from the accumulator or the list whose `finishKey` is minimal among
all candidates seen; a `none` result means there was no candidate. -/
theorem pick_foldl_spec (l : List Participant) :
    ∀ (acc : Option Participant),
      (∀ q ∈ l, isFinishCandidate q = true → q.user ≠ "") →
      (∀ a, acc = some a → isFinishCandidate a = true ∧ a.user ≠ "") →
      (∀ m, l.foldl pickStep acc = some m →
        (isFinishCandidate m = true ∧ m.user ≠ "") ∧
        (acc = some m ∨ m ∈ l) ∧
        (∀ q ∈ l, isFinishCandidate q = true → finishKey m ≤ finishKey q) ∧
        (∀ a, acc = some a → finishKey m ≤ finishKey a)) ∧
      (l.foldl pickStep acc = none →
        acc = none ∧ ∀ q ∈ l, isFinishCandidate q = false) := by
  induction l with
  | nil =>
    intro acc _ hacc
    constructor
    · intro m hm
      simp only [List.foldl_nil] at hm
      refine ⟨hacc m hm, Or.inl hm, by simp, ?_⟩
      intro a ha
      rw [hm] at ha
      cases ha
      exact le_refl _
    · intro hm
      simp only [List.foldl_nil] at hm
      exact ⟨hm, by simp⟩
  | cons p l ih =>
    intro acc hl hacc
    have hl2 : ∀ q ∈ l, isFinishCandidate q = true → q.user ≠ "" :=
      fun q hq h => hl q (List.mem_cons_of_mem p hq) h
    simp only [List.foldl_cons]
    by_cases hp : isFinishCandidate p = true
    · have hpu : p.user ≠ "" := hl p (List.mem_cons_self p l) hp
      have key_facts : ∃ b, pickStep acc p = some b ∧ (b = p ∨ acc = some b) ∧
          finishKey b ≤ finishKey p ∧
          (∀ a, acc = some a → finishKey b ≤ finishKey a) := by
        cases acc with
        | none =>
          exact ⟨p, pickStep_none_candidate p hp, Or.inl rfl, le_refl _, by simp⟩
        | some a =>
          obtain ⟨hca, hau⟩ := hacc a rfl
          rw [pickStep_candidates a p hp hpu hau]
          by_cases hlt : finishKey p < finishKey a
          · rw [if_pos hlt]
            refine ⟨p, rfl, Or.inl rfl, le_refl _, ?_⟩
            intro a2 ha2
            injection ha2 with h
            subst h
            exact le_of_lt hlt
          · rw [if_neg hlt]
            refine ⟨a, rfl, Or.inr rfl, not_lt.mp hlt, ?_⟩
            intro a2 ha2
            injection ha2 with h
            subst h
            exact le_refl _
      obtain ⟨b, hb, hbsrc, hbp, hbacc⟩ := key_facts
      rw [hb]
      have hacc2 : ∀ x, (some b : Option Participant) = some x →
          isFinishCandidate x = true ∧ x.user ≠ "" := by
        intro x hx
        injection hx with h
        subst h
        rcases hbsrc with rfl | hab
        · exact ⟨hp, hpu⟩
        · exact hacc _ hab
      have IH := ih (some b) hl2 hacc2
      constructor
      · intro m hm
        obtain ⟨hmc, hmsrc, hmmin, hmacc⟩ := IH.1 m hm
        refine ⟨hmc, ?_, ?_, ?_⟩
        · rcases hmsrc with hsb | hml
          · injection hsb with h
            subst h
            rcases hbsrc with rfl | hab
            · exact Or.inr (List.mem_cons_self _ _)
            · exact Or.inl hab
          · exact Or.inr (List.mem_cons_of_mem p hml)
        · intro q hq hqc
          rcases List.mem_cons.mp hq with rfl | hql
          · exact le_trans (hmacc b rfl) hbp
          · exact hmmin q hql hqc
        · intro a ha
          exact le_trans (hmacc b rfl) (hbacc a ha)
      · intro hm
        obtain ⟨hbn, _⟩ := IH.2 hm
        exact absurd hbn (by simp)
    · rw [pickStep_not_candidate acc p (by simpa using hp)]
      have IH := ih acc hl2 hacc
      constructor
      · intro m hm
        obtain ⟨hmc, hmsrc, hmmin, hmacc⟩ := IH.1 m hm
        refine ⟨hmc, ?_, ?_, hmacc⟩
        · rcases hmsrc with h | h
          · exact Or.inl h
          · exact Or.inr (List.mem_cons_of_mem p h)
        · intro q hq hqc
          rcases List.mem_cons.mp hq with rfl | hql
          · exact absurd hqc (by simpa using hp)
          · exact hmmin q hql hqc
      · intro hm
        obtain ⟨haccn, hall⟩ := IH.2 hm
        refine ⟨haccn, ?_⟩
        intro q hq
        rcases List.mem_cons.mp hq with rfl | hql
        · simpa using hp
        · exact hall q hql

/-- `C3`: the earliest-finisher selection is a pure function of the
participants' `(userId, completedAt)` data: for races whose participant
lists are permutations of each other (with real, nonempty user ids), the
selected winner's `(userId, completedAt)` pair is identical; the winner is a
completed participant minimizing the completion time with ties broken by
ascending lexicographic user id; and a winner exists whenever some
participant is completed with a timestamp. -/
theorem c3_earliest_finisher_deterministic (r1 r2 : Race)
    (hperm : r1.participants.Perm r2.participants)
    (husers : ∀ p ∈ r1.participants, isFinishCandidate p = true → p.user ≠ "") :
    (Option.map (fun p => (p.user, p.completedAt))
        (pickEarliestCompletedParticipant r1)
      = Option.map (fun p => (p.user, p.completedAt))
        (pickEarliestCompletedParticipant r2)) ∧
    (∀ m, pickEarliestCompletedParticipant r1 = some m →
      isFinishCandidate m = true ∧ m ∈ r1.participants ∧
      ∀ q ∈ r1.participants, isFinishCandidate q = true →
        completedMs m < completedMs q ∨
          (completedMs m = completedMs q ∧ m.user ≤ q.user)) ∧
    ((∃ q ∈ r1.participants, isFinishCandidate q = true) →
      (pickEarliestCompletedParticipant r1).isSome) := by
  have husers2 : ∀ p ∈ r2.participants, isFinishCandidate p = true → p.user ≠ "" :=
    fun p hp h => husers p (hperm.mem_iff.mpr hp) h
  have S1 := pick_foldl_spec r1.participants none husers (by simp)
  have S2 := pick_foldl_spec r2.participants none husers2 (by simp)
  refine ⟨?_, ?_, ?_⟩
  · cases h1 : pickEarliestCompletedParticipant r1 with
    | none =>
      cases h2 : pickEarliestCompletedParticipant r2 with
      | none => rfl
      | some m2 =>
        obtain ⟨⟨hc2, _⟩, hsrc2, _, _⟩ := S2.1 m2 h2
        have hmem2 : m2 ∈ r2.participants := by
          rcases hsrc2 with h | h
          · simp at h
          · exact h
        have hfalse := (S1.2 h1).2 m2 (hperm.mem_iff.mpr hmem2)
        rw [hc2] at hfalse
        cases hfalse
    | some m1 =>
      cases h2 : pickEarliestCompletedParticipant r2 with
      | none =>
        obtain ⟨⟨hc1, _⟩, hsrc1, _, _⟩ := S1.1 m1 h1
        have hmem1 : m1 ∈ r1.participants := by
          rcases hsrc1 with h | h
          · simp at h
          · exact h
        have hfalse := (S2.2 h2).2 m1 (hperm.mem_iff.mp hmem1)
        rw [hc1] at hfalse
        cases hfalse
      | some m2 =>
        obtain ⟨⟨hc1, _⟩, hsrc1, hmin1, _⟩ := S1.1 m1 h1
        obtain ⟨⟨hc2, _⟩, hsrc2, hmin2, _⟩ := S2.1 m2 h2
        have hmem1 : m1 ∈ r1.participants := by
          rcases hsrc1 with h | h
          · simp at h
          · exact h
        have hmem2 : m2 ∈ r2.participants := by
          rcases hsrc2 with h | h
          · simp at h
          · exact h
        have hle1 : finishKey m1 ≤ finishKey m2 :=
          hmin1 m2 (hperm.mem_iff.mpr hmem2) hc2
        have hle2 : finishKey m2 ≤ finishKey m1 :=
          hmin2 m1 (hperm.mem_iff.mp hmem1) hc1
        have hkey : finishKey m1 = finishKey m2 := le_antisymm hle1 hle2
        have hpair : (completedMs m1, m1.user) = (completedMs m2, m2.user) :=
          congrArg ofLex hkey
        have hms : completedMs m1 = completedMs m2 := congrArg Prod.fst hpair
        have hus : m1.user = m2.user := congrArg Prod.snd hpair
        simp only [isFinishCandidate, Bool.and_eq_true, decide_eq_true_eq,
          Option.isSome_iff_ne_none] at hc1 hc2
        obtain ⟨x1, hx1⟩ := Option.ne_none_iff_exists'.mp hc1.2
        obtain ⟨x2, hx2⟩ := Option.ne_none_iff_exists'.mp hc2.2
        have hxx : x1 = x2 := by
          have e1 : completedMs m1 = x1 := by rw [completedMs, hx1]; rfl
          have e2 : completedMs m2 = x2 := by rw [completedMs, hx2]; rfl
          rw [← e1, ← e2, hms]
        simp only [Option.map_some']
        rw [hus, hx1, hx2, hxx]
  · intro m hm
    obtain ⟨⟨hc, _⟩, hsrc, hmin, _⟩ := S1.1 m hm
    have hmem : m ∈ r1.participants := by
      rcases hsrc with h | h
      · simp at h
      · exact h
    refine ⟨hc, hmem, ?_⟩
    intro q hq hqc
    have hle := hmin q hq hqc
    unfold finishKey at hle
    rw [Prod.Lex.le_iff] at hle
    exact hle
  · rintro ⟨q, hq, hqc⟩
    cases h1 : pickEarliestCompletedParticipant r1 with
    | some m => rfl
    | none =>
      have hfalse := (S1.2 h1).2 q hq
      rw [hqc] at hfalse
      cases hfalse

/-- Witness for `C3` on two permuted two-participant races. -/
theorem c3_earliest_finisher_deterministic_witness :
    Option.map (fun p => (p.user, p.completedAt))
        (pickEarliestCompletedParticipant c3Race1)
      = Option.map (fun p => (p.user, p.completedAt))
        (pickEarliestCompletedParticipant c3Race2) ∧
    (pickEarliestCompletedParticipant c3Race1).isSome :=
  ⟨(c3_earliest_finisher_deterministic c3Race1 c3Race2
      (List.Perm.swap c3P2 c3P1 []) (by decide)).1,
    (c3_earliest_finisher_deterministic c3Race1 c3Race2
      (List.Perm.swap c3P2 c3P1 []) (by decide)).2.2
      ⟨c3P2, List.mem_cons_of_mem _ (List.mem_cons_self _ _), by decide⟩⟩

/-- Invariant of the race-selection fold: a `some` result names a race of
the list (or the accumulator) through a participation with a valid
`joinedAt` that is maximal among all seen. -/
theorem select_foldl_spec (uid : String) (l : List Race) :
    ∀ acc : Option (Race × Nat),
      (∀ r j, l.foldl (selectStep uid) acc = some (r, j) →
        (acc = some (r, j) ∨
          (r ∈ l ∧ ∃ p, getParticipant r uid = some p ∧ p.joinedAt = some j)) ∧
        (∀ r2 ∈ l, ∀ p2 j2, getParticipant r2 uid = some p2 →
          p2.joinedAt = some j2 → j2 ≤ j) ∧
        (∀ rj2, acc = some rj2 → rj2.2 ≤ j)) ∧
      (l.foldl (selectStep uid) acc = none →
        acc = none ∧
          ∀ r2 ∈ l, ∀ p2, getParticipant r2 uid = some p2 → p2.joinedAt = none) := by
  induction l with
  | nil =>
    intro acc
    constructor
    · intro r j hm
      simp only [List.foldl_nil] at hm
      refine ⟨Or.inl hm, by simp, ?_⟩
      intro rj2 h2
      rw [hm] at h2
      cases h2
      exact le_refl _
    · intro hm
      simp only [List.foldl_nil] at hm
      exact ⟨hm, by simp⟩
  | cons r0 l ih =>
    intro acc
    simp only [List.foldl_cons]
    have step_facts : (selectStep uid acc r0 = acc ∧
          ∀ p, getParticipant r0 uid = some p → p.joinedAt = none) ∨
        (∃ p j0, getParticipant r0 uid = some p ∧ p.joinedAt = some j0 ∧
          ((selectStep uid acc r0 = some (r0, j0) ∧
              ∀ rj2, acc = some rj2 → rj2.2 ≤ j0) ∨
            (selectStep uid acc r0 = acc ∧ ∃ rj2, acc = some rj2 ∧ j0 ≤ rj2.2))) := by
      unfold selectStep
      cases hgp : getParticipant r0 uid with
      | none =>
        refine Or.inl ⟨rfl, ?_⟩
        intro p hp
        exact absurd hp (by simp)
      | some p =>
        dsimp only
        cases hj : p.joinedAt with
        | none =>
          dsimp only
          refine Or.inl ⟨rfl, ?_⟩
          intro p2 hp2
          injection hp2 with hp2
          subst hp2
          exact hj
        | some j0 =>
          dsimp only
          refine Or.inr ⟨p, j0, rfl, hj, ?_⟩
          cases acc with
          | none =>
            dsimp only
            refine Or.inl ⟨rfl, ?_⟩
            intro rj2 h2
            exact absurd h2 (by simp)
          | some best =>
            dsimp only
            by_cases hlt : best.2 < j0
            · rw [if_pos hlt]
              refine Or.inl ⟨rfl, ?_⟩
              intro rj2 h2
              injection h2 with h2
              subst h2
              exact le_of_lt hlt
            · rw [if_neg hlt]
              exact Or.inr ⟨rfl, best, rfl, not_lt.mp hlt⟩
    constructor
    · intro r j hm
      rcases step_facts with ⟨hstep, hnoj⟩ | ⟨p, j0, hgp, hj, hcase⟩
      · rw [hstep] at hm
        obtain ⟨hsrc, hmax, haccle⟩ := (ih acc).1 r j hm
        refine ⟨?_, ?_, haccle⟩
        · rcases hsrc with h | ⟨hmem, hp⟩
          · exact Or.inl h
          · exact Or.inr ⟨List.mem_cons_of_mem r0 hmem, hp⟩
        · intro r2 hr2 p2 j2 hp2 hj2
          rcases List.mem_cons.mp hr2 with rfl | hr2l
          · rw [hnoj p2 hp2] at hj2
            cases hj2
          · exact hmax r2 hr2l p2 j2 hp2 hj2
      · rcases hcase with ⟨hstep, haccle0⟩ | ⟨hstep, best, hbest, hle0⟩
        · rw [hstep] at hm
          obtain ⟨hsrc, hmax, haccle⟩ := (ih (some (r0, j0))).1 r j hm
          have hj0j : j0 ≤ j := by
            have := haccle (r0, j0) rfl
            exact this
          refine ⟨?_, ?_, ?_⟩
          · rcases hsrc with h | ⟨hmem, hp⟩
            · injection h with h
              have hr : r0 = r := congrArg Prod.fst h
              have hjj : j0 = j := congrArg Prod.snd h
              subst hr
              subst hjj
              exact Or.inr ⟨List.mem_cons_self _ _, p, hgp, hj⟩
            · exact Or.inr ⟨List.mem_cons_of_mem r0 hmem, hp⟩
          · intro r2 hr2 p2 j2 hp2 hj2
            rcases List.mem_cons.mp hr2 with rfl | hr2l
            · rw [hgp] at hp2
              injection hp2 with hp2
              subst hp2
              rw [hj] at hj2
              injection hj2 with hj2
              subst hj2
              exact hj0j
            · exact hmax r2 hr2l p2 j2 hp2 hj2
          · intro rj2 h2
            exact le_trans (haccle0 rj2 h2) hj0j
        · rw [hstep] at hm
          obtain ⟨hsrc, hmax, haccle⟩ := (ih acc).1 r j hm
          have hbestj : best.2 ≤ j := haccle best hbest
          refine ⟨?_, ?_, haccle⟩
          · rcases hsrc with h | ⟨hmem, hp⟩
            · exact Or.inl h
            · exact Or.inr ⟨List.mem_cons_of_mem r0 hmem, hp⟩
          · intro r2 hr2 p2 j2 hp2 hj2
            rcases List.mem_cons.mp hr2 with rfl | hr2l
            · rw [hgp] at hp2
              injection hp2 with hp2
              subst hp2
              rw [hj] at hj2
              injection hj2 with hj2
              subst hj2
              exact le_trans hle0 hbestj
            · exact hmax r2 hr2l p2 j2 hp2 hj2
    · intro hm
      rcases step_facts with ⟨hstep, hnoj⟩ | ⟨p, j0, hgp, hj, hcase⟩
      · rw [hstep] at hm
        obtain ⟨haccn, hall⟩ := (ih acc).2 hm
        refine ⟨haccn, ?_⟩
        intro r2 hr2 p2 hp2
        rcases List.mem_cons.mp hr2 with rfl | hr2l
        · exact hnoj p2 hp2
        · exact hall r2 hr2l p2 hp2
      · rcases hcase with ⟨hstep, _⟩ | ⟨hstep, best, hbest, _⟩
        · rw [hstep] at hm
          obtain ⟨haccn, _⟩ := (ih (some (r0, j0))).2 hm
          cases haccn
        · rw [hstep] at hm
          obtain ⟨haccn, _⟩ := (ih acc).2 hm
          rw [haccn] at hbest
          cases hbest

/-- Counterexample to `C8` as stated: a user whose only participation in the
date-active race is `withdrawn` still gets the batch applied (the sync path
never filters by participation status), where the claim requires a no-op
with `applied = false` and `deltaKm = 0`. -/
theorem c8_selection_counterexample :
    (healthSync 90000 [c8WithdrawnRace] "u" {} 500 c8Batch).response.applied = true ∧
    (healthSync 90000 [c8WithdrawnRace] "u" {} 500 c8Batch).response.deltaKm = 5 := by
  constructor <;>
    norm_num [healthSync, batchPassesValidation, itemPassesValidation,
      activeRacesFor, selectLatestJoined, selectStep, getParticipant,
      applySyncToParticipant, syncLoop, syncLoopStep, lastIdxByDay, updateFirst,
      jsToFixed, c8WithdrawnRace, c8Batch, List.foldl, List.filter,
      List.find?]

/-- `C8` (amended): the batch is applied to the participation selected among
all races whose `[startDate, endDate]` window contains `now` and where the
user holds a participation of *any* status (withdrawn included), picking the
latest valid join timestamp; when no such participation exists the route is
a no-op reporting `applied = false` with `deltaKm = 0` and no error. -/
theorem c8_selection_amended :
    (∀ (W : Nat) (races : List Race) (uid : String) (user : UserDoc)
        (now : Nat) (items : List SyncItem),
      batchPassesValidation items = true →
      (∀ r ∈ races, ¬(r.startDate ≤ now ∧ now ≤ r.endDate ∧
          ∃ p ∈ r.participants, p.user = uid)) →
      (healthSync W races uid user now items).response.applied = false ∧
      (healthSync W races uid user now items).response.deltaKm = 0 ∧
      (healthSync W races uid user now items).response.validationError = false) ∧
    (∀ (W : Nat) (races : List Race) (uid : String) (user : UserDoc)
        (now : Nat) (items : List SyncItem),
      (healthSync W races uid user now items).response.applied = true →
      ∃ r ∈ races, ∃ p j,
        r.startDate ≤ now ∧ now ≤ r.endDate ∧
        getParticipant r uid = some p ∧ p.joinedAt = some j ∧
        (healthSync W races uid user now items).response.raceId = some r.id ∧
        (∀ r2 ∈ races, r2.startDate ≤ now → now ≤ r2.endDate →
          ∀ p2 j2, getParticipant r2 uid = some p2 → p2.joinedAt = some j2 →
            j2 ≤ j)) := by
  constructor
  · intro W races uid user now items hv hno
    have hempty : activeRacesFor races uid now = [] := by
      rw [activeRacesFor, List.filter_eq_nil_iff]
      intro r hr
      intro hcond
      simp only [Bool.and_eq_true, decide_eq_true_eq, List.any_eq_true] at hcond
      obtain ⟨⟨h1, h2⟩, q, hq, hqu⟩ := hcond
      exact hno r hr ⟨h1, h2, q, hq, by simpa using hqu⟩
    have hvne : ¬ batchPassesValidation items = false := by simp [hv]
    refine ⟨?_, ?_, ?_⟩ <;>
      simp [healthSync, if_neg hvne, hempty, selectLatestJoined]
  · intro W races uid user now items happ
    by_cases hv : batchPassesValidation items = false
    · rw [healthSync, if_pos hv] at happ
      simp at happ
    · cases hsel : selectLatestJoined (activeRacesFor races uid now) uid with
      | none =>
        rw [healthSync, if_neg hv, hsel] at happ
        simp at happ
      | some best =>
        cases hgp : getParticipant best.1 uid with
        | none =>
          rw [healthSync, if_neg hv] at happ
          rw [hsel] at happ
          dsimp only at happ
          rw [hgp] at happ
          simp at happ
        | some p0 =>
          have hspec := (select_foldl_spec uid (activeRacesFor races uid now) none).1
            best.1 best.2 (by rw [selectLatestJoined] at hsel; simpa using hsel)
          obtain ⟨hsrc, hmax, _⟩ := hspec
          rcases hsrc with h | ⟨hmem, p1, hgp1, hj1⟩
          · exact absurd h (by simp)
          · have hp01 : p1 = p0 := by
              rw [hgp] at hgp1
              exact (Option.some.inj hgp1).symm
            subst hp01
            have hmem2 := List.mem_filter.mp hmem
            have hcond := hmem2.2
            simp only [Bool.and_eq_true, decide_eq_true_eq] at hcond
            refine ⟨best.1, hmem2.1, p1, best.2, hcond.1.1, hcond.1.2, hgp1, hj1,
              ?_, ?_⟩
            · rw [healthSync, if_neg hv]
              rw [hsel]
              dsimp only
              rw [hgp]
            · intro r2 hr2 h21 h22 p2 j2 hp2 hj2
              refine hmax r2 ?_ p2 j2 hp2 hj2
              rw [activeRacesFor, List.mem_filter]
              refine ⟨hr2, ?_⟩
              simp only [Bool.and_eq_true, decide_eq_true_eq, List.any_eq_true]
              exact ⟨⟨h21, h22⟩, p2, List.mem_of_find?_eq_some hp2, by
                have := List.find?_some hp2
                simpa using this⟩

/-- Witness for the amended `C8`: no participation at all is a clean no-op. -/
theorem c8_selection_amended_witness :
    (healthSync 90000 [] "u" {} 500 c8Batch).response.applied = false ∧
    (healthSync 90000 [] "u" {} 500 c8Batch).response.deltaKm = 0 :=
  ⟨((c8_selection_amended).1 90000 [] "u" {} 500 c8Batch
      (by norm_num [batchPassesValidation, itemPassesValidation, c8Batch])
      (by simp)).1,
    ((c8_selection_amended).1 90000 [] "u" {} 500 c8Batch
      (by norm_num [batchPassesValidation, itemPassesValidation, c8Batch])
      (by simp)).2.1⟩

/-- An arbitration refresh never touches the participants array. -/
theorem refresh_participants (W : Nat) (race : Race) (now : Nat) :
    (refreshFinishResolution W race now).1.participants = race.participants := by
  unfold refreshFinishResolution
  cases pickEarliestCompletedParticipant race <;> dsimp only <;>
    first
    | rfl
    | (split_ifs <;> rfl)

/-- `C6`: a sync whose recomputed total reaches the race distance flips an
`active` participant to `completed` stamping `completedAt := now` (the
observation time, not the sample's day); a positive accumulated gain credits
`floor(deltaKm × 10)` XP; and the concrete scenario: race distance 10 km,
days {2024-01-01: 4, 2024-01-02: 7}, zero prior distance → totalDistance 11,
status completed at `now`, deltaKm 11, XP 110. -/
theorem c6_completion_and_xp :
    (∀ (d : ℚ) (now : Nat) (p : Participant) (items : List SyncItem),
      p.status = PStatus.active →
      d ≤ (applySyncToParticipant d now p items).1.totalDistance →
      (applySyncToParticipant d now p items).1.status = PStatus.completed ∧
      (applySyncToParticipant d now p items).1.completedAt = some now) ∧
    (∀ (user : UserDoc) (deltaKm : ℚ) (now : Nat), 0 < deltaKm →
      (applyUserProgress user deltaKm now).totalXp
        = user.totalXp + (⌊deltaKm * (XP_PER_KM : ℚ)⌋).toNat) ∧
    ((healthSync 90000 [c6Race] "u" {} 5000 c6Batch).response.deltaKm = 11 ∧
      (healthSync 90000 [c6Race] "u" {} 5000 c6Batch).user.totalXp = 110 ∧
      Option.map
          (fun r => r.participants.map fun p => (p.status, p.completedAt, p.totalDistance))
          (healthSync 90000 [c6Race] "u" {} 5000 c6Batch).updatedRace
        = some [(PStatus.completed, some 5000, (11 : ℚ))]) := by
  refine ⟨?_, ?_, ?_, ?_, ?_⟩
  · intro d now p items hact hle
    unfold applySyncToParticipant at hle ⊢
    dsimp only at hle ⊢
    split_ifs at hle ⊢ with h
    · exact ⟨rfl, rfl⟩
    · exact absurd ⟨hle, hact⟩ h
  · intro user deltaKm now h
    unfold applyUserProgress
    rw [if_pos h]
  · norm_num [healthSync, batchPassesValidation, itemPassesValidation,
      activeRacesFor, selectLatestJoined, selectStep, getParticipant,
      applySyncToParticipant, syncLoop, syncLoopStep, lastIdxByDay, updateFirst,
      jsToFixed, c6Race, c6Batch, List.foldl, List.filter, List.find?]
  · norm_num [healthSync, batchPassesValidation, itemPassesValidation,
      activeRacesFor, selectLatestJoined, selectStep, getParticipant,
      applySyncToParticipant, syncLoop, syncLoopStep, lastIdxByDay, updateFirst,
      jsToFixed, applyUserProgress, XP_PER_KM,
      c6Race, c6Batch, List.foldl, List.filter, List.find?]
    rfl
  · norm_num [healthSync, batchPassesValidation, itemPassesValidation,
      activeRacesFor, selectLatestJoined, selectStep, getParticipant,
      applySyncToParticipant, syncLoop, syncLoopStep, lastIdxByDay, updateFirst,
      jsToFixed, refresh_participants,
      c6Race, c6Batch, List.foldl, List.filter, List.find?]

/-- Witness for `C6` at the scenario inputs. -/
theorem c6_completion_and_xp_witness :
    (applySyncToParticipant 10 5000 freshParticipant c6Batch).1.status
        = PStatus.completed ∧
    (applyUserProgress {} 11 5000).totalXp = 110 := by
  constructor
  · exact ((c6_completion_and_xp).1 10 5000 freshParticipant c6Batch rfl
      (by norm_num [applySyncToParticipant, syncLoop, syncLoopStep, lastIdxByDay,
        freshParticipant, c6Batch, List.foldl])).1
  · rw [(c6_completion_and_xp).2.1 {} 11 5000 (by norm_num)]
    norm_num [XP_PER_KM]
    rfl

/-- A sync never changes the participant's user reference. -/
theorem applySync_user (d : ℚ) (now : Nat) (p : Participant)
    (items : List SyncItem) :
    (applySyncToParticipant d now p items).1.user = p.user := by
  unfold applySyncToParticipant
  dsimp only
  split_ifs <;> rfl

/-- A sync never changes the status or `completedAt` of a `completed`
participant (the completion transition fires only from `active`). -/
theorem applySync_preserves_completed (d : ℚ) (now : Nat) (p : Participant)
    (items : List SyncItem) (hp : p.status = PStatus.completed) :
    (applySyncToParticipant d now p items).1.status = PStatus.completed ∧
    (applySyncToParticipant d now p items).1.completedAt = p.completedAt := by
  unfold applySyncToParticipant
  dsimp only
  split_ifs with h
  · rw [hp] at h
    cases h.2
  · exact ⟨hp, rfl⟩

/-- Replacing the first matching participant by an update that preserves
completion keeps every completed participant present. -/
theorem updateFirst_preserves_completed (uid : String) (c : Participant) :
    ∀ l : List Participant,
      (∀ q, l.find? (fun x => x.user = uid) = some q →
        q.status = PStatus.completed →
        c.status = PStatus.completed ∧ c.completedAt = q.completedAt ∧
          c.user = q.user) →
      ∀ p ∈ l, p.status = PStatus.completed →
        ∃ p2 ∈ updateFirst (fun x => x.user = uid) (fun _ => c) l,
          p2.user = p.user ∧ p2.status = PStatus.completed ∧
            p2.completedAt = p.completedAt := by
  intro l
  induction l with
  | nil =>
    intro _ p hp
    cases hp
  | cons x xs ih =>
    intro hc p hp hcomp
    by_cases hx : (x.user = uid)
    · have hfind : (x :: xs).find? (fun y => y.user = uid) = some x :=
        List.find?_cons_of_pos _ (by simpa using hx)
      have hupd : updateFirst (fun y => y.user = uid) (fun _ => c) (x :: xs)
          = c :: xs := by
        simp only [updateFirst]
        rw [if_pos (by simpa using hx)]
      rcases List.mem_cons.mp hp with rfl | hpx
      · obtain ⟨hcs, hcc, hcu⟩ := hc p hfind hcomp
        exact ⟨c, by rw [hupd]; exact List.mem_cons_self _ _, hcu, hcs, hcc⟩
      · exact ⟨p, by rw [hupd]; exact List.mem_cons_of_mem c hpx, rfl, hcomp, rfl⟩
    · have hfind : (x :: xs).find? (fun y => y.user = uid)
          = xs.find? (fun y => y.user = uid) :=
        List.find?_cons_of_neg _ (by simpa using hx)
      have hupd : updateFirst (fun y => y.user = uid) (fun _ => c) (x :: xs)
          = x :: updateFirst (fun y => y.user = uid) (fun _ => c) xs := by
        simp only [updateFirst]
        rw [if_neg (by simpa using hx)]
      rcases List.mem_cons.mp hp with rfl | hpx
      · exact ⟨p, by rw [hupd]; exact List.mem_cons_self _ _, rfl, hcomp, rfl⟩
      · obtain ⟨p2, hp2mem, hp2u, hp2s, hp2c⟩ := ih
          (fun q hq hqc => hc q (by rw [hfind]; exact hq) hqc) p hpx hcomp
        exact ⟨p2, by rw [hupd]; exact List.mem_cons_of_mem x hp2mem, hp2u, hp2s, hp2c⟩

/-- The earliest-finisher scan never drops a current candidate. -/
theorem pickStep_isSome (e : Participant) (p : Participant) :
    (pickStep (some e) p).isSome = true := by
  unfold pickStep
  by_cases h : (p.status ≠ PStatus.completed ∨ p.completedAt = none)
  · rw [if_pos h]
    rfl
  · rw [if_neg h]
    dsimp only
    split_ifs <;> rfl

/-- The scan returns a participant whenever a candidate exists. -/
theorem pick_isSome_of_candidate :
    ∀ (l : List Participant) (acc : Option Participant),
      ((∃ p ∈ l, isFinishCandidate p = true) ∨ acc.isSome = true) →
      (l.foldl pickStep acc).isSome = true := by
  intro l
  induction l with
  | nil =>
    intro acc h
    rcases h with ⟨p, hp, _⟩ | h
    · cases hp
    · simpa using h
  | cons x xs ih =>
    intro acc h
    simp only [List.foldl_cons]
    by_cases hx : isFinishCandidate x = true
    · refine ih (pickStep acc x) (Or.inr ?_)
      cases acc with
      | none => rw [pickStep_none_candidate x hx]; rfl
      | some e => exact pickStep_isSome e x
    · rw [pickStep_not_candidate acc x (by simpa using hx)]
      refine ih acc ?_
      rcases h with ⟨p, hp, hpc⟩ | hacc
      · rcases List.mem_cons.mp hp with rfl | hpxs
        · exact absurd hpc hx
        · exact Or.inl ⟨p, hpxs, hpc⟩
      · exact Or.inr hacc

/-- `C10`: no health sync changes a completed participant's status or
`completedAt`; race-level, every completed participant of the selected race
survives the sync unchanged, so once some participant is completed (with a
timestamp), the earliest-finisher scan of the post-sync race still finds a
candidate — the clearing (→ NONE) branch of `refreshFinishResolution` is
never taken after a completion under sync operations alone. -/
theorem c10_completion_stable_under_sync :
    (∀ (d : ℚ) (now : Nat) (p : Participant) (items : List SyncItem),
      p.status = PStatus.completed →
      (applySyncToParticipant d now p items).1.status = PStatus.completed ∧
      (applySyncToParticipant d now p items).1.completedAt = p.completedAt) ∧
    (∀ (W : Nat) (races : List Race) (uid : String) (user : UserDoc)
        (now : Nat) (items : List SyncItem) (race2 : Race),
      (healthSync W races uid user now items).updatedRace = some race2 →
      ∃ r ∈ races,
        (∀ p ∈ r.participants, p.status = PStatus.completed →
          ∃ p2 ∈ race2.participants, p2.user = p.user ∧
            p2.status = PStatus.completed ∧ p2.completedAt = p.completedAt) ∧
        ((∃ p ∈ r.participants, p.status = PStatus.completed ∧
            p.completedAt.isSome = true) →
          (pickEarliestCompletedParticipant race2).isSome = true)) := by
  refine ⟨fun d now p items hp => applySync_preserves_completed d now p items hp, ?_⟩
  intro W races uid user now items race2 hupd
  by_cases hv : batchPassesValidation items = false
  · rw [healthSync, if_pos hv] at hupd
    cases hupd
  · cases hsel : selectLatestJoined (activeRacesFor races uid now) uid with
    | none =>
      rw [healthSync, if_neg hv, hsel] at hupd
      cases hupd
    | some best =>
      cases hgp : getParticipant best.1 uid with
      | none =>
        rw [healthSync, if_neg hv] at hupd
        rw [hsel] at hupd
        dsimp only at hupd
        rw [hgp] at hupd
        cases hupd
      | some p0 =>
        rw [healthSync, if_neg hv] at hupd
        rw [hsel] at hupd
        dsimp only at hupd
        rw [hgp] at hupd
        dsimp only at hupd
        injection hupd with hupd
        -- membership of the selected race
        have hspec := (select_foldl_spec uid (activeRacesFor races uid now) none).1
          best.1 best.2 (by rw [selectLatestJoined] at hsel; simpa using hsel)
        obtain ⟨hsrc, _, _⟩ := hspec
        rcases hsrc with h | ⟨hmem, _⟩
        · exact absurd h (by simp)
        · have hmem2 := (List.mem_filter.mp hmem).1
          refine ⟨best.1, hmem2, ?_, ?_⟩
          · intro p hp hcomp
            have hparts : race2.participants =
                updateFirst (fun x => x.user = uid)
                  (fun _ => (applySyncToParticipant best.1.raceDistance now p0 items).1)
                  best.1.participants := by
              rw [← hupd, refresh_participants]
            have hpres := updateFirst_preserves_completed uid
              (applySyncToParticipant best.1.raceDistance now p0 items).1
              best.1.participants
              (fun q hq hqc => by
                have hq0 : q = p0 := by
                  rw [getParticipant] at hgp
                  rw [hgp] at hq
                  exact (Option.some.inj hq).symm
                subst hq0
                obtain ⟨hs, hcc⟩ := applySync_preserves_completed
                  best.1.raceDistance now q items hqc
                exact ⟨hs, hcc, applySync_user _ _ _ _⟩)
              p hp hcomp
            rw [← hparts] at hpres
            exact hpres
          · rintro ⟨p, hp, hcomp, hsome⟩
            have hparts : race2.participants =
                updateFirst (fun x => x.user = uid)
                  (fun _ => (applySyncToParticipant best.1.raceDistance now p0 items).1)
                  best.1.participants := by
              rw [← hupd, refresh_participants]
            have hpres := updateFirst_preserves_completed uid
              (applySyncToParticipant best.1.raceDistance now p0 items).1
              best.1.participants
              (fun q hq hqc => by
                have hq0 : q = p0 := by
                  rw [getParticipant] at hgp
                  rw [hgp] at hq
                  exact (Option.some.inj hq).symm
                subst hq0
                obtain ⟨hs, hcc⟩ := applySync_preserves_completed
                  best.1.raceDistance now q items hqc
                exact ⟨hs, hcc, applySync_user _ _ _ _⟩)
              p hp hcomp
            rw [← hparts] at hpres
            obtain ⟨p2, hp2mem, _, hp2s, hp2c⟩ := hpres
            refine pick_isSome_of_candidate race2.participants none
              (Or.inl ⟨p2, hp2mem, ?_⟩)
            simp only [isFinishCandidate, Bool.and_eq_true, decide_eq_true_eq]
            exact ⟨hp2s, by rw [hp2c]; exact hsome⟩

/-- Witness for `C10` on a concrete completed participant. -/
theorem c10_completion_stable_under_sync_witness :
    (applySyncToParticipant 100 500 c10VParticipant c8Batch).1.status
        = PStatus.completed ∧
    (applySyncToParticipant 100 500 c10VParticipant c8Batch).1.completedAt
        = some 77 := by
  have h := (c10_completion_stable_under_sync).1 100 500 c10VParticipant c8Batch rfl
  exact ⟨h.1, h.2⟩

end RaceSrv
